import Mathlib

/-!
Shallow embedding of the SynapseWatcher polling notification daemon
(`synapsewatcher.py`): the message model (`SynapseMessage.from_file`),
the filter predicate (`MessageFilter.matches`), the seen-set deduplication
(`SynapseWatcher._detect_new_messages`), the dispatch loop with per-handler
failure isolation (`SynapseWatcher._process_message`, `_watch_loop`), and
the lifecycle controls (`start`, `stop`).

JSON values are modelled by an inductive `Json`; Python dictionaries
decoded from JSON are association lists with unique keys.  The dynamically
typed Python dataclass is modelled on the well-typed fragment given by its
own field annotations (`msg_id: str`, `to: List[str]`, `subject: str`,
`body` an arbitrary JSON value, `priority: str`, `timestamp: str`);
payloads whose present fields do not fit those annotations fall outside
the model and parse to `none`.
-/

/-- JSON values, as produced by `json.load`. -/
inductive Json where
  | null
  | bool (b : Bool)
  | num (n : Int)
  | str (s : String)
  | arr (elems : List Json)
  | obj (fields : List (String × Json))

/-- Python `data.get(key, default)` on a decoded JSON object's fields. -/
def getField (fields : List (String × Json)) (key : String) (dflt : Json) : Json :=
  match fields.lookup key with
  | some v => v
  | none => dflt

/-- Extraction of a JSON string into the typed fragment. -/
def asString : Json → Option String
  | .str s => some s
  | _ => none

/-- Extraction of a list of JSON strings (auxiliary, over the element list). -/
def asStringListAux : List Json → Option (List String)
  | [] => some []
  | j :: rest =>
    match asString j, asStringListAux rest with
    | some s, some ss => some (s :: ss)
    | _, _ => none

/-- Extraction of a JSON array of strings into the typed fragment. -/
def asStringList : Json → Option (List String)
  | .arr elems => asStringListAux elems
  | _ => none

/-- The `SynapseMessage` dataclass, with the types of its own field
annotations.  `filepath` is the originating file's path as a string. -/
structure SynapseMessage where
  msg_id : String
  from_agent : String
  «to» : List String
  subject : String
  body : Json
  priority : String
  timestamp : String
  filepath : String

/-- Embedding of `SynapseMessage.from_file` after `json.load` has produced
`data`: each field is `data.get` with the source's fallback chain and
default.  A non-object payload makes `data.get` raise `AttributeError` in
the source (handled by the caller's generic handler); here it is `none`,
as is any payload outside the typed fragment of the field annotations. -/
def SynapseMessage.fromData (filepath : String) (data : Json) : Option SynapseMessage :=
  match data with
  | .obj fields =>
    match asString (getField fields "msg_id" (getField fields "message_id" (Json.str "unknown"))),
          asString (getField fields "from" (getField fields "from_agent" (Json.str "UNKNOWN"))),
          asStringList (getField fields "to" (Json.arr [])),
          asString (getField fields "subject" (Json.str "")),
          asString (getField fields "priority" (Json.str "NORMAL")),
          asString (getField fields "timestamp" (Json.str "")) with
    | some msg_id, some from_agent, some tos, some subject, some priority, some timestamp =>
      some ⟨msg_id, from_agent, tos, subject, getField fields "body" (Json.obj []),
            priority, timestamp, filepath⟩
    | _, _, _, _, _, _ => none
  | _ => none

/-- The `MessageFilter` constructor's state: three optional string
constraints and a keyword list (`keywords or []` maps `None` to `[]`). -/
structure MessageFilter where
  to_agent : Option String
  from_agent : Option String
  priority : Option String
  keywords : List String

/-- Escaping of a string for `json.dumps` (double quote and backslash;
control and non-ASCII escapes of the source's `ensure_ascii` default are
not modelled, the claims use plain ASCII text). -/
def jsonEscape (s : String) : String :=
  s.data.foldl
    (fun acc c =>
      if c = '"' then acc ++ "\\\""
      else if c = '\\' then acc ++ "\\\\"
      else acc ++ String.singleton c) ""

mutual

/-- Python `json.dumps` with its default separators. -/
def dumps : Json → String
  | .null => "null"
  | .bool true => "true"
  | .bool false => "false"
  | .num n => toString n
  | .str s => "\"" ++ jsonEscape s ++ "\""
  | .arr elems => "[" ++ dumpsList elems ++ "]"
  | .obj fields => "\x7b" ++ dumpsFields fields ++ "\x7d"

/-- Comma-separated `json.dumps` of array elements. -/
def dumpsList : List Json → String
  | [] => ""
  | [j] => dumps j
  | j :: rest => dumps j ++ ", " ++ dumpsList rest

/-- Comma-separated `json.dumps` of object entries. -/
def dumpsFields : List (String × Json) → String
  | [] => ""
  | [(k, v)] => "\"" ++ jsonEscape k ++ "\": " ++ dumps v
  | (k, v) :: rest => "\"" ++ jsonEscape k ++ "\": " ++ dumps v ++ ", " ++ dumpsFields rest

end

mutual

/-- Python `repr` of a value decoded from JSON (string quoting simplified
to bare single quotes; the claims never inspect this text). -/
def pyRepr : Json → String
  | .null => "None"
  | .bool true => "True"
  | .bool false => "False"
  | .num n => toString n
  | .str s => "'" ++ s ++ "'"
  | .arr elems => "[" ++ pyReprList elems ++ "]"
  | .obj fields => "\x7b" ++ pyReprFields fields ++ "\x7d"

/-- Comma-separated `repr` of list elements. -/
def pyReprList : List Json → String
  | [] => ""
  | [j] => pyRepr j
  | j :: rest => pyRepr j ++ ", " ++ pyReprList rest

/-- Comma-separated `repr` of dictionary entries. -/
def pyReprFields : List (String × Json) → String
  | [] => ""
  | [(k, v)] => "'" ++ k ++ "': " ++ pyRepr v
  | (k, v) :: rest => "'" ++ k ++ "': " ++ pyRepr v ++ ", " ++ pyReprFields rest

end

/-- Python `str()` of a value decoded from JSON. -/
def pyStr : Json → String
  | .str s => s
  | j => pyRepr j

/-- The `body_text` computed by the keyword check:
`json.dumps(message.body) if isinstance(message.body, dict) else str(message.body)`. -/
def bodyText : Json → String
  | .obj fields => dumps (.obj fields)
  | j => pyStr j

/-- Python substring membership `needle in hay` on strings. -/
def containsSubstr (hay needle : String) : Bool :=
  go needle.data hay.data
where
  /-- Scan of the haystack for a prefix match at each position. -/
  go (needle : List Char) : List Char → Bool
    | [] => needle.isEmpty
    | c :: rest => needle.isPrefixOf (c :: rest) || go needle rest

/-- The `to_agent` clause of `MessageFilter.matches`: true exactly when the
source's first early `return False` fires.  `if self.to_agent:` skips the
check for `None` and for the falsy empty string.  In the typed fragment
`message.to` is a list, so the `isinstance` fallback wrapping a bare
string is the identity. -/
def toAgentRejects (f : MessageFilter) (m : SynapseMessage) : Bool :=
  match f.to_agent with
  | none => false
  | some ta =>
    if ta = "" then false
    else
      let to_list := m.«to»
      !(to_list.contains ta) && !(to_list.contains "ALL_AGENTS") && !(to_list.contains "ALL")

/-- The `from_agent` clause: `if self.from_agent and message.from_agent != self.from_agent`. -/
def fromAgentRejects (f : MessageFilter) (m : SynapseMessage) : Bool :=
  match f.from_agent with
  | none => false
  | some fa => if fa = "" then false else !(m.from_agent == fa)

/-- The `priority` clause: `if self.priority and message.priority != self.priority`. -/
def priorityRejects (f : MessageFilter) (m : SynapseMessage) : Bool :=
  match f.priority with
  | none => false
  | some p => if p = "" then false else !(m.priority == p)

/-- The keyword clause: on a non-empty keyword list, lowercase
`subject + " " + body_text` and reject unless some lowercased keyword is a
substring. -/
def keywordRejects (f : MessageFilter) (m : SynapseMessage) : Bool :=
  if f.keywords.isEmpty then false
  else
    let text := (m.subject ++ " " ++ bodyText m.body).toLower
    !(f.keywords.any (fun kw => containsSubstr text kw.toLower))

/-- Embedding of `MessageFilter.matches`: the source's sequence of early
`return False` checks, then `return True`. -/
def MessageFilter.matches (f : MessageFilter) (m : SynapseMessage) : Bool :=
  if toAgentRejects f m then false
  else if fromAgentRejects f m then false
  else if priorityRejects f m then false
  else if keywordRejects f m then false
  else true

/-- Content of one file in the watched directory, as seen by
`SynapseMessage.from_file`: well-formed JSON, malformed JSON
(`json.JSONDecodeError`), or an unreadable file (`OSError` etc.). -/
inductive FileContent where
  | json (data : Json)
  | malformed
  | unreadable

/-- One `*.json` file in the watched directory: its filename stem
(`filepath.stem`) and its content. -/
structure FileEntry where
  stem : String
  content : FileContent

/-- Embedding of `SynapseWatcher._detect_new_messages`: walk the directory
listing in order; a file whose stem is already in `seen_messages` is
skipped, otherwise it is appended to `new_messages` and its stem is added
to `seen_messages`.  Returns the new files (in discovery order) and the
updated seen-set. -/
def detectNewMessages : List FileEntry → List String → List FileEntry × List String
  | [], seen => ([], seen)
  | fp :: rest, seen =>
    if fp.stem ∈ seen then
      detectNewMessages rest seen
    else
      let r := detectNewMessages rest (fp.stem :: seen)
      (fp :: r.1, r.2)

/-- A registered callback's observable behavior on a message: `true` when
the call returns normally, `false` when it raises. -/
def Callback : Type := SynapseMessage → Bool

/-- Record of one callback invocation: the message it was passed and
whether it returned normally (a raise is caught and logged). -/
structure CallRecord where
  message : SynapseMessage
  ok : Bool

/-- Embedding of the callback fan-out in `_process_message`:
`for callback in self.callbacks: try callback(message) except ...` — each
callback is invoked once, in registration order, with the same message; a
raise is caught so iteration continues. -/
def runCallbacks : List Callback → SynapseMessage → List CallRecord
  | [], _ => []
  | cb :: rest, m => ⟨m, cb m⟩ :: runCallbacks rest m

/-- Outcome of `_process_message` on one queued file.  `parseError` is the
`except json.JSONDecodeError` branch; `accessError` is the generic
`except Exception` branch (unreadable file, or `.get` on a non-object
payload raising `AttributeError`).  `untypedPayload` marks payloads
outside the typed fragment of the dataclass annotations, which the
dynamically typed source would process; no claim reaches it. -/
inductive ProcOutcome where
  | dispatched (msgId : String) (calls : List CallRecord)
  | filtered (msgId : String)
  | parseError
  | accessError
  | untypedPayload

/-- Embedding of `SynapseWatcher._process_message`: parse the file, apply
the optional filter, then run the callbacks; a `json.JSONDecodeError` and
any other exception are caught, logged, and end only this file's
processing. -/
def processMessage (filter : Option MessageFilter) (cbs : List Callback)
    (file : FileEntry) : ProcOutcome :=
  match file.content with
  | .unreadable => .accessError
  | .malformed => .parseError
  | .json data =>
    match data with
    | .obj _ =>
      match SynapseMessage.fromData (file.stem ++ ".json") data with
      | none => .untypedPayload
      | some m =>
        match filter with
        | some flt =>
          if flt.matches m then .dispatched m.msg_id (runCallbacks cbs m)
          else .filtered m.msg_id
        | none => .dispatched m.msg_id (runCallbacks cbs m)
    | _ => .accessError

/-- One loop event: the stem of the processed file and what happened. -/
structure CycleEvent where
  stem : String
  outcome : ProcOutcome

/-- Processing of one cycle's batch of newly detected files, in discovery
order. -/
def processBatch (filter : Option MessageFilter) (cbs : List Callback)
    (batch : List FileEntry) : List CycleEvent :=
  batch.map (fun f => ⟨f.stem, processMessage filter cbs f⟩)

/-- Embedding of the baseline scan at the top of `_watch_loop`:
`for filepath in glob: seen_messages.add(filepath.stem)` — every present
stem is added to the seen-set and nothing is dispatched. -/
def markBaseline : List FileEntry → List String → List String
  | [], seen => seen
  | fp :: rest, seen => markBaseline rest (fp.stem :: seen)

/-- The events produced by `n` poll cycles of the `while self.running`
loop, starting at cycle index `t` with seen-set `seen`; `env t` is the
directory listing the cycle at index `t` observes. -/
def watchCycleEvents (filter : Option MessageFilter) (cbs : List Callback)
    (env : Nat → List FileEntry) (seen : List String) (t : Nat) : Nat → List CycleEvent
  | 0 => []
  | Nat.succ n =>
    processBatch filter cbs (detectNewMessages (env t) seen).1
      ++ watchCycleEvents filter cbs env (detectNewMessages (env t) seen).2 (t + 1) n

/-- The seen-set after `i` further cycles, starting at cycle index `t`. -/
def seenAfterCycles (env : Nat → List FileEntry) (seen : List String) (t : Nat) : Nat → List String
  | 0 => seen
  | Nat.succ i => (detectNewMessages (env (t + i)) (seenAfterCycles env seen t i)).2

/-- The batch `_detect_new_messages` returns on the cycle `i` steps after
cycle index `t`. -/
def batchAt (env : Nat → List FileEntry) (seen : List String) (t : Nat) (i : Nat) : List FileEntry :=
  (detectNewMessages (env (t + i)) (seenAfterCycles env seen t i)).1

/-- Events of a whole `_watch_loop` run: the baseline pass over the start
listing `env 0`, then `fuel` poll cycles observing `env 1`, `env 2`, ... -/
def watchEvents (filter : Option MessageFilter) (cbs : List Callback)
    (env : Nat → List FileEntry) (seen : List String) (fuel : Nat) : List CycleEvent :=
  watchCycleEvents filter cbs env (markBaseline (env 0) seen) 1 fuel

/-- The mutable state of a `SynapseWatcher` instance relevant to the
claims: the seen-set, the run flag, the registered callbacks, and the
optional filter. -/
structure SynapseWatcher where
  seen_messages : List String
  running : Bool
  callbacks : List Callback
  message_filter : Option MessageFilter

/-- Result of `start()`: either the early `Already running!` return, or a
completed `_watch_loop` run with its events. -/
inductive StartResult where
  | alreadyRunning
  | ran (events : List CycleEvent)

/-- Embedding of `SynapseWatcher.start`: an early return when already
running, otherwise set `running`, execute `_watch_loop` (baseline pass,
then `fuel` cycles), and finally clear `running`. -/
def SynapseWatcher.start (w : SynapseWatcher) (env : Nat → List FileEntry)
    (fuel : Nat) : SynapseWatcher × StartResult :=
  if w.running then (w, .alreadyRunning)
  else
    let seen1 := markBaseline (env 0) w.seen_messages
    let events := watchCycleEvents w.message_filter w.callbacks env seen1 1 fuel
    let seenF := seenAfterCycles env seen1 1 fuel
    ({ w with seen_messages := seenF, running := false }, .ran events)

/-- Discrete-time model of the loop's observation of a stop request.
`stop()` only sets `self.running = False`; the flag is consulted solely by
the `while self.running` test at the top of each iteration, and
`time.sleep(poll_interval)` always runs to completion.  An iteration
starting at time `T` checks the flag at `T`, spends `c` on
detection/processing and `i` asleep, and checks again at `T + c + i`.
`stopAt` is the time the stop request is issued (the flag reads false from
then on); the result is the time the loop observes the stop and exits,
`none` if the fuel runs out first. -/
def loopRun (c i stopAt : Nat) : Nat → Nat → Option Nat
  | _, 0 => none
  | T, Nat.succ n => if stopAt ≤ T then some T else loopRun c i stopAt (T + c + i) n

/-- Unfolding of `detectNewMessages` when the head file's stem is seen. -/
theorem detect_cons_seen (fp : FileEntry) (rest : List FileEntry) (seen : List String)
    (h : fp.stem ∈ seen) :
    detectNewMessages (fp :: rest) seen = detectNewMessages rest seen := by
  simp [detectNewMessages, h]

/-- Unfolding of `detectNewMessages` when the head file's stem is new. -/
theorem detect_cons_new (fp : FileEntry) (rest : List FileEntry) (seen : List String)
    (h : fp.stem ∉ seen) :
    detectNewMessages (fp :: rest) seen
      = (fp :: (detectNewMessages rest (fp.stem :: seen)).1,
         (detectNewMessages rest (fp.stem :: seen)).2) := by
  simp [detectNewMessages, h]

/-- The seen-set only grows across one detection pass. -/
theorem detect_seen_mono : ∀ (files : List FileEntry) (seen : List String) (s : String),
    s ∈ seen → s ∈ (detectNewMessages files seen).2 := by
  intro files
  induction files with
  | nil => intro seen s h; simpa [detectNewMessages] using h
  | cons fp rest ih =>
    intro seen s h
    by_cases hmem : fp.stem ∈ seen
    · rw [detect_cons_seen fp rest seen hmem]; exact ih seen s h
    · rw [detect_cons_new fp rest seen hmem]
      exact ih (fp.stem :: seen) s (List.mem_cons_of_mem _ h)

/-- Every file a detection pass returns has its stem in the updated seen-set. -/
theorem detect_new_stem_seen : ∀ (files : List FileEntry) (seen : List String) (f : FileEntry),
    f ∈ (detectNewMessages files seen).1 → f.stem ∈ (detectNewMessages files seen).2 := by
  intro files
  induction files with
  | nil => intro seen f h; simp [detectNewMessages] at h
  | cons fp rest ih =>
    intro seen f h
    by_cases hmem : fp.stem ∈ seen
    · rw [detect_cons_seen fp rest seen hmem] at h ⊢; exact ih seen f h
    · rw [detect_cons_new fp rest seen hmem] at h ⊢
      rcases List.mem_cons.mp h with rfl | h2
      · exact detect_seen_mono rest (f.stem :: seen) f.stem (List.mem_cons_self _ _)
      · exact ih (fp.stem :: seen) f h2

/-- A detection pass never returns a file whose stem was already seen. -/
theorem detect_new_not_seen : ∀ (files : List FileEntry) (seen : List String) (f : FileEntry),
    f ∈ (detectNewMessages files seen).1 → f.stem ∉ seen := by
  intro files
  induction files with
  | nil => intro seen f h; simp [detectNewMessages] at h
  | cons fp rest ih =>
    intro seen f h
    by_cases hmem : fp.stem ∈ seen
    · rw [detect_cons_seen fp rest seen hmem] at h; exact ih seen f h
    · rw [detect_cons_new fp rest seen hmem] at h
      rcases List.mem_cons.mp h with rfl | h2
      · exact hmem
      · intro hcontra
        exact ih (fp.stem :: seen) f h2 (List.mem_cons_of_mem _ hcontra)

/-- A present file with an unseen stem is returned (first occurrence of the
stem) by the detection pass. -/
theorem detect_finds : ∀ (files : List FileEntry) (seen : List String) (f : FileEntry),
    f ∈ files → f.stem ∉ seen →
    ∃ g, g ∈ (detectNewMessages files seen).1 ∧ g.stem = f.stem := by
  intro files
  induction files with
  | nil => intro seen f h; simp at h
  | cons fp rest ih =>
    intro seen f hf hns
    by_cases hmem : fp.stem ∈ seen
    · rw [detect_cons_seen fp rest seen hmem]
      rcases List.mem_cons.mp hf with rfl | h2
      · exact absurd hmem hns
      · exact ih seen f h2 hns
    · rw [detect_cons_new fp rest seen hmem]
      rcases List.mem_cons.mp hf with rfl | h2
      · exact ⟨f, List.mem_cons_self _ _, rfl⟩
      · by_cases hsame : f.stem = fp.stem
        · exact ⟨fp, List.mem_cons_self _ _, hsame.symm⟩
        · obtain ⟨g, hg, hgs⟩ := ih (fp.stem :: seen) f h2 (by
            intro hc
            rcases List.mem_cons.mp hc with hc | hc
            · exact hsame hc
            · exact hns hc)
          exact ⟨g, List.mem_cons_of_mem _ hg, hgs⟩

/-- The stems of one detection pass's batch are pairwise distinct. -/
theorem detect_nodup : ∀ (files : List FileEntry) (seen : List String),
    ((detectNewMessages files seen).1.map FileEntry.stem).Nodup := by
  intro files
  induction files with
  | nil => intro seen; simp [detectNewMessages]
  | cons fp rest ih =>
    intro seen
    by_cases hmem : fp.stem ∈ seen
    · rw [detect_cons_seen fp rest seen hmem]; exact ih seen
    · rw [detect_cons_new fp rest seen hmem]
      simp only [List.map_cons, List.nodup_cons]
      refine ⟨?_, ih (fp.stem :: seen)⟩
      intro hc
      obtain ⟨g, hg, hgs⟩ := List.mem_map.mp hc
      exact detect_new_not_seen rest (fp.stem :: seen) g hg (hgs ▸ List.mem_cons_self _ _)

/-- Seen stems stay seen across later cycles. -/
theorem seenAfter_of_seen (env : Nat → List FileEntry) (seen : List String) (t : Nat) :
    ∀ (i : Nat) (s : String), s ∈ seen → s ∈ seenAfterCycles env seen t i := by
  intro i
  induction i with
  | zero => intro s h; simpa [seenAfterCycles] using h
  | succ i ih =>
    intro s h
    exact detect_seen_mono _ _ s (ih s h)

/-- Monotonicity of the seen-set along the cycle index. -/
theorem seenAfter_mono (env : Nat → List FileEntry) (seen : List String) (t : Nat) :
    ∀ (i j : Nat), i ≤ j → ∀ s, s ∈ seenAfterCycles env seen t i →
    s ∈ seenAfterCycles env seen t j := by
  intro i j hij
  induction j with
  | zero => intro s h; rwa [Nat.le_zero.mp hij] at h
  | succ j ih =>
    intro s h
    rcases Nat.lt_or_ge i (j + 1) with hlt | hge
    · exact detect_seen_mono _ _ s (ih (Nat.lt_succ_iff.mp hlt) s h)
    · rwa [Nat.le_antisymm hij hge] at h

/-- A file in the cycle-`i` batch has its stem in the seen-set from the next
cycle on. -/
theorem batch_stem_seen_next (env : Nat → List FileEntry) (seen : List String) (t : Nat)
    (i : Nat) (g : FileEntry) (h : g ∈ batchAt env seen t i) :
    g.stem ∈ seenAfterCycles env seen t (i + 1) := by
  exact detect_new_stem_seen _ _ g h

/-- C1: for every file added to the inbox after the watcher has started, the
new-message detection step returns that file at most once across all poll
cycles.  Concretely: (i) batches of distinct cycles never share a stem;
(ii) once a stem is in the seen-set, every later sighting is silently
ignored — no batch of any later cycle contains it; (iii) a present file
whose stem is not yet seen is returned by that cycle's batch (so exactly
one batch occurs per file); (iv) within one batch every stem occurs once. -/
theorem detect_at_most_once (env : Nat → List FileEntry) (seen : List String) (t : Nat) :
    (∀ i j f g, i < j → f ∈ batchAt env seen t i → g ∈ batchAt env seen t j →
      g.stem ≠ f.stem)
    ∧ (∀ i j s g, i ≤ j → s ∈ seenAfterCycles env seen t i → g ∈ batchAt env seen t j →
      g.stem ≠ s)
    ∧ (∀ i f, f ∈ env (t + i) → f.stem ∉ seenAfterCycles env seen t i →
      ∃ g, g ∈ batchAt env seen t i ∧ g.stem = f.stem)
    ∧ (∀ i, ((batchAt env seen t i).map FileEntry.stem).Nodup) := by
  have hsup : ∀ i j s g, i ≤ j → s ∈ seenAfterCycles env seen t i →
      g ∈ batchAt env seen t j → g.stem ≠ s := by
    intro i j s g hij hs hg
    intro hcontra
    exact detect_new_not_seen _ _ g hg
      (hcontra ▸ seenAfter_mono env seen t i j hij s hs)
  refine ⟨?_, hsup, ?_, ?_⟩
  · intro i j f g hij hf hg
    exact hsup (i + 1) j f.stem g hij (batch_stem_seen_next env seen t i f hf) hg
  · intro i f hf hns
    exact detect_finds _ _ f hf hns
  · intro i
    exact detect_nodup _ _

/-- Every stem already in the seed set is in the baseline-marked set. -/
theorem markBaseline_of_mem : ∀ (files : List FileEntry) (seen : List String) (s : String),
    s ∈ seen → s ∈ markBaseline files seen := by
  intro files
  induction files with
  | nil => intro seen s h; simpa [markBaseline] using h
  | cons fp rest ih =>
    intro seen s h
    exact ih (fp.stem :: seen) s (List.mem_cons_of_mem _ h)

/-- The baseline pass marks the stem of every present file. -/
theorem markBaseline_mem : ∀ (files : List FileEntry) (seen : List String) (f : FileEntry),
    f ∈ files → f.stem ∈ markBaseline files seen := by
  intro files
  induction files with
  | nil => intro seen f h; simp at h
  | cons fp rest ih =>
    intro seen f hf
    rcases List.mem_cons.mp hf with rfl | h2
    · exact markBaseline_of_mem rest (f.stem :: seen) f.stem (List.mem_cons_self _ _)
    · exact ih (fp.stem :: seen) f h2

/-- No loop event ever carries a stem that was in the seen-set when the
cycles began. -/
theorem watch_events_not_seen (filter : Option MessageFilter) (cbs : List Callback)
    (env : Nat → List FileEntry) :
    ∀ (n t : Nat) (seen : List String) (s : String), s ∈ seen →
    ∀ ev, ev ∈ watchCycleEvents filter cbs env seen t n → ev.stem ≠ s := by
  intro n
  induction n with
  | zero => intro t seen s _ ev hev; simp [watchCycleEvents] at hev
  | succ n ih =>
    intro t seen s hs ev hev
    rcases List.mem_append.mp hev with hb | hrest
    · obtain ⟨g, hg, rfl⟩ := List.mem_map.mp hb
      intro hcontra
      have h2 : g.stem = s := hcontra
      exact detect_new_not_seen _ _ g hg (h2 ▸ hs)
    · exact ih (t + 1) (detectNewMessages (env t) seen).2 s
        (detect_seen_mono _ _ s hs) ev hrest

/-- C2: the one-time baseline scan marks the stem of every file already
present in the inbox (the `env 0` listing) before the first cycle, without
dispatching them, so no loop event — in particular no handler invocation —
ever stems from a file present at start time. -/
theorem baseline_excluded (filter : Option MessageFilter) (cbs : List Callback)
    (env : Nat → List FileEntry) (seen : List String) (fuel : Nat)
    (f : FileEntry) (ev : CycleEvent) :
    f ∈ env 0 → ev ∈ watchEvents filter cbs env seen fuel → ev.stem ≠ f.stem := by
  intro hf hev
  exact watch_events_not_seen filter cbs env fuel 1 (markBaseline (env 0) seen) f.stem
    (markBaseline_mem (env 0) seen f hf) ev hev

/-- `runCallbacks` is exactly one invocation per registered callback, in
order, against the one message. -/
theorem runCallbacks_eq_map : ∀ (cbs : List Callback) (m : SynapseMessage),
    runCallbacks cbs m = cbs.map (fun cb => ⟨m, cb m⟩) := by
  intro cbs m
  induction cbs with
  | nil => rfl
  | cons cb rest ih => simp [runCallbacks, ih]

/-- C3: during dispatch of one message every registered callback is invoked
in registration order with that same message; a callback that raises
(`cb m = false`) is caught, so the callbacks after it are still invoked
(first two conjuncts), and the loop proceeds to the next cycle afterwards
(third conjunct). -/
theorem callbacks_isolated (cbs1 cbs2 : List Callback) (cb : Callback) (m : SynapseMessage) :
    runCallbacks (cbs1 ++ cb :: cbs2) m
      = runCallbacks cbs1 m ++ ⟨m, cb m⟩ :: runCallbacks cbs2 m
    ∧ runCallbacks (cbs1 ++ cb :: cbs2) m
      = (cbs1 ++ cb :: cbs2).map (fun c => ⟨m, c m⟩)
    ∧ ∀ (filter : Option MessageFilter) (env : Nat → List FileEntry)
        (seen : List String) (t n : Nat),
        watchCycleEvents filter (cbs1 ++ cb :: cbs2) env seen t (n + 1)
          = processBatch filter (cbs1 ++ cb :: cbs2) (detectNewMessages (env t) seen).1
            ++ watchCycleEvents filter (cbs1 ++ cb :: cbs2) env
                (detectNewMessages (env t) seen).2 (t + 1) n := by
  refine ⟨?_, runCallbacks_eq_map _ m, fun _ _ _ _ _ => rfl⟩
  rw [runCallbacks_eq_map, runCallbacks_eq_map, runCallbacks_eq_map]
  simp

/-- Concrete two-file environment for instantiations: file `a` is present
from the start, file `b` appears from cycle 1 on. -/
def envAB : Nat → List FileEntry :=
  fun k =>
    if k = 0 then [⟨"a", FileContent.malformed⟩]
    else [⟨"a", FileContent.malformed⟩, ⟨"b", FileContent.malformed⟩]

/-- Witness for C1 at `envAB`: the batches of cycles 0 and 1 do not share a
stem, the newly appeared file `b` is claimed by cycle 1's batch, and a
batch's stems are duplicate-free. -/
theorem detect_at_most_once_witness :
    ("b" : String) ≠ "a"
    ∧ (∃ g, g ∈ batchAt envAB [] 0 1 ∧ g.stem = "b")
    ∧ ((batchAt envAB [] 0 0).map FileEntry.stem).Nodup := by
  have h0 : batchAt envAB [] 0 0 = [⟨"a", FileContent.malformed⟩] := rfl
  have h1 : batchAt envAB [] 0 1 = [⟨"b", FileContent.malformed⟩] := rfl
  have hs1 : seenAfterCycles envAB [] 0 1 = ["a"] := rfl
  obtain ⟨one, _, three, four⟩ := detect_at_most_once envAB [] 0
  refine ⟨?_, ?_, four 0⟩
  · exact one 0 1 ⟨"a", FileContent.malformed⟩ ⟨"b", FileContent.malformed⟩ (by decide)
      (by rw [h0]; exact List.mem_singleton.mpr rfl)
      (by rw [h1]; exact List.mem_singleton.mpr rfl)
  · exact three 1 ⟨"b", FileContent.malformed⟩
      (by
        rw [show envAB (0 + 1)
            = [⟨"a", FileContent.malformed⟩, ⟨"b", FileContent.malformed⟩] from rfl]
        exact List.mem_cons_of_mem _ (List.mem_singleton.mpr rfl))
      (by rw [hs1]; decide)

/-- Witness for C2 at `envAB`: the run's only event stems from the freshly
appeared file `b`, never from the pre-existing file `a`. -/
theorem baseline_excluded_witness :
    (⟨"b", ProcOutcome.parseError⟩ : CycleEvent).stem
      ≠ (⟨"a", FileContent.malformed⟩ : FileEntry).stem := by
  refine baseline_excluded none [] envAB [] 1 ⟨"a", FileContent.malformed⟩
    ⟨"b", ProcOutcome.parseError⟩ ?_ ?_
  · rw [show envAB 0 = [⟨"a", FileContent.malformed⟩] from rfl]
    exact List.mem_singleton.mpr rfl
  · rw [show watchEvents none [] envAB [] 1 = [⟨"b", ProcOutcome.parseError⟩] from rfl]
    exact List.mem_singleton.mpr rfl

/-- Counterexample for C4: a payload with neither `msg_id` nor `message_id`,
loaded from the file `m1.json` whose stem is `m1`, parses with identity the
literal sentinel `unknown` — not the filename stem `m1`, as the claim's
filename fallback would require. -/
theorem identity_fallback_counterexample :
    SynapseMessage.fromData "m1.json" (Json.obj [])
      = some ⟨"unknown", "UNKNOWN", [], "", Json.obj [], "NORMAL", "", "m1.json"⟩
    ∧ ("unknown" : String) ≠ "m1" ∧ ("unknown" : String) ≠ "m1.json" :=
  ⟨rfl, by decide, by decide⟩

/-- C4 (amended): for every message file whose JSON payload contains neither
the primary identity key `msg_id` nor its alias `message_id`, the parsed
message's identity is the literal sentinel `unknown`, independent of the
filename; the filename stem is used only by the detection step. -/
theorem identity_fallback_unknown (fp : String) (fields : List (String × Json))
    (m : SynapseMessage) (h1 : fields.lookup "msg_id" = none)
    (h2 : fields.lookup "message_id" = none)
    (h : SynapseMessage.fromData fp (Json.obj fields) = some m) :
    m.msg_id = "unknown" := by
  simp only [SynapseMessage.fromData, getField, h1, h2, asString] at h
  split at h
  · injection h with h; subst h; simp_all
  · simp_all

/-- Witness for C4's amended theorem at the empty payload. -/
theorem identity_fallback_unknown_witness :
    (⟨"unknown", "UNKNOWN", [], "", Json.obj [], "NORMAL", "", "m1.json"⟩
      : SynapseMessage).msg_id = "unknown" :=
  identity_fallback_unknown "m1.json" [] _ rfl rfl rfl

/-- C5: a payload holding only an identity field parses successfully with
every other field defaulted: sender `UNKNOWN`, recipients `[]`, subject
empty, body the empty object, priority `NORMAL`, timestamp empty.  The
identity comes from `msg_id`, falling back to the alias `message_id`,
falling back to the literal `unknown`. -/
theorem minimal_payload_defaults (i fp : String) :
    SynapseMessage.fromData fp (Json.obj [("msg_id", Json.str i)])
      = some ⟨i, "UNKNOWN", [], "", Json.obj [], "NORMAL", "", fp⟩
    ∧ SynapseMessage.fromData fp (Json.obj [("message_id", Json.str i)])
      = some ⟨i, "UNKNOWN", [], "", Json.obj [], "NORMAL", "", fp⟩
    ∧ SynapseMessage.fromData fp (Json.obj [])
      = some ⟨"unknown", "UNKNOWN", [], "", Json.obj [], "NORMAL", "", fp⟩ :=
  ⟨rfl, rfl, rfl⟩

/-- Counterexample for C6: with the recipient constraint set to the empty
string — a string X — and a message whose recipient list is `["B"]`
(containing neither the empty string nor a broadcast marker), `matches`
returns true: the source's `if self.to_agent:` treats the falsy empty
string like an unset constraint, so the claimed `matches = false` fails. -/
theorem recipient_check_counterexample :
    (MessageFilter.to_agent ⟨some "", none, none, []⟩ = some "")
    ∧ ¬(("" : String) ∈ ["B"] ∨ ("ALL_AGENTS" : String) ∈ ["B"] ∨ ("ALL" : String) ∈ ["B"])
    ∧ MessageFilter.matches ⟨some "", none, none, []⟩
        ⟨"m", "A", ["B"], "", Json.obj [], "NORMAL", "", "m.json"⟩ = true :=
  ⟨rfl, by decide, rfl⟩

/-- C6 (amended): for every filter whose recipient constraint is set to a
non-empty string X, the recipient check passes exactly when X is in the
message's recipient list or the list contains one of the broadcast markers
`ALL_AGENTS` or `ALL`; when the check fails, `matches` returns false
regardless of the other constraints.  (An empty-string constraint is falsy
in Python and is skipped like an unset one, per the counterexample.) -/
theorem recipient_check (f : MessageFilter) (m : SynapseMessage) (X : String)
    (hX : f.to_agent = some X) (hne : X ≠ "") :
    ((toAgentRejects f m = false) ↔
      (X ∈ m.«to» ∨ "ALL_AGENTS" ∈ m.«to» ∨ "ALL" ∈ m.«to»))
    ∧ (toAgentRejects f m = true → f.matches m = false) := by
  constructor
  · simp only [toAgentRejects, hX]
    rw [if_neg hne]
    simp only [Bool.and_eq_false_iff, Bool.not_eq_false', List.elem_iff]
    tauto
  · intro h
    simp [MessageFilter.matches, h]

/-- Witness for C6's amended theorem: constraint `ATLAS` against a message
addressed to `["ATLAS"]`. -/
theorem recipient_check_witness :
    ((toAgentRejects ⟨some "ATLAS", none, none, []⟩
        ⟨"m", "A", ["ATLAS"], "", Json.obj [], "NORMAL", "", "m.json"⟩ = false) ↔
      (("ATLAS" : String) ∈ ["ATLAS"] ∨ ("ALL_AGENTS" : String) ∈ ["ATLAS"]
        ∨ ("ALL" : String) ∈ ["ATLAS"]))
    ∧ (toAgentRejects ⟨some "ATLAS", none, none, []⟩
        ⟨"m", "A", ["ATLAS"], "", Json.obj [], "NORMAL", "", "m.json"⟩ = true →
      MessageFilter.matches ⟨some "ATLAS", none, none, []⟩
        ⟨"m", "A", ["ATLAS"], "", Json.obj [], "NORMAL", "", "m.json"⟩ = false) :=
  recipient_check ⟨some "ATLAS", none, none, []⟩
    ⟨"m", "A", ["ATLAS"], "", Json.obj [], "NORMAL", "", "m.json"⟩ "ATLAS" rfl (by decide)

/-- C7: for every filter with a non-empty keyword list, the keyword check
passes exactly when some keyword, lowercased, is a substring of the
lowercased concatenation of the message's subject and the textual
serialization of its body (`json.dumps` for objects, `str()` otherwise) —
a plain substring test, not word-boundary matching; and when the check
fails, `matches` returns false. -/
theorem keyword_check (f : MessageFilter) (m : SynapseMessage) (h : f.keywords ≠ []) :
    ((keywordRejects f m = false) ↔
      ∃ kw ∈ f.keywords,
        containsSubstr ((m.subject ++ " " ++ bodyText m.body).toLower) kw.toLower = true)
    ∧ (keywordRejects f m = true → f.matches m = false) := by
  constructor
  · simp only [keywordRejects]
    rw [if_neg (by simpa [List.isEmpty_iff] using h)]
    simp only [Bool.not_eq_false', List.any_eq_true]
  · intro h2
    simp [MessageFilter.matches, h2]

/-- Witness for C7: keyword `cat` against subject `category` (the accepted
partial-word substring match). -/
theorem keyword_check_witness :
    ((keywordRejects ⟨none, none, none, ["cat"]⟩
        ⟨"m", "A", [], "category", Json.obj [], "NORMAL", "", "m.json"⟩ = false) ↔
      ∃ kw ∈ (["cat"] : List String),
        containsSubstr ((("category" : String) ++ " " ++ bodyText (Json.obj [])).toLower)
          kw.toLower = true)
    ∧ (keywordRejects ⟨none, none, none, ["cat"]⟩
        ⟨"m", "A", [], "category", Json.obj [], "NORMAL", "", "m.json"⟩ = true →
      MessageFilter.matches ⟨none, none, none, ["cat"]⟩
        ⟨"m", "A", [], "category", Json.obj [], "NORMAL", "", "m.json"⟩ = false) :=
  keyword_check ⟨none, none, none, ["cat"]⟩
    ⟨"m", "A", [], "category", Json.obj [], "NORMAL", "", "m.json"⟩ (by decide)

/-- C8: a queued file with malformed JSON yields `parseError` — a branch
distinct from the `accessError` of other I/O failures — the file is
skipped but stays claimed in the seen-set, and the loop continues: in the
concrete run, the malformed file `bad` produces exactly one `parseError`
event although it remains present in every later listing, and the valid
file `good` appearing afterwards is still dispatched to the callback. -/
theorem malformed_skipped (filt : Option MessageFilter) (cbs : List Callback)
    (file : FileEntry) (h : file.content = FileContent.malformed) :
    processMessage filt cbs file = ProcOutcome.parseError
    ∧ ProcOutcome.parseError ≠ ProcOutcome.accessError
    ∧ watchEvents none [fun _ => true]
        (fun t =>
          if t = 0 then []
          else if t = 1 then [⟨"bad", FileContent.malformed⟩]
          else [⟨"bad", FileContent.malformed⟩,
                ⟨"good", FileContent.json (Json.obj [("msg_id", Json.str "good")])⟩])
        [] 3
      = [⟨"bad", ProcOutcome.parseError⟩,
         ⟨"good", ProcOutcome.dispatched "good"
            [⟨⟨"good", "UNKNOWN", [], "", Json.obj [], "NORMAL", "", "good.json"⟩, true⟩]⟩] := by
  refine ⟨?_, fun hc => ProcOutcome.noConfusion hc, rfl⟩
  obtain ⟨stem, content⟩ := file
  have h2 : content = FileContent.malformed := h
  subst h2
  rfl

/-- Witness for C8 at a concrete malformed file. -/
theorem malformed_skipped_witness :
    processMessage none [] ⟨"x", FileContent.malformed⟩ = ProcOutcome.parseError :=
  (malformed_skipped none [] ⟨"x", FileContent.malformed⟩ rfl).1

/-- One-step unfolding of `loopRun` while fuel remains. -/
theorem loopRun_succ (c i stopAt T n : Nat) :
    loopRun c i stopAt T (n + 1)
      = if stopAt ≤ T then some T else loopRun c i stopAt (T + c + i) n := rfl

/-- A stop issued strictly after cycle `k`'s flag check is observed at the
next check, at time `T + (k+1)*(c+i)` — never earlier. -/
theorem loopRun_exit_time : ∀ (c i stopAt k T fuel : Nat),
    T + k * (c + i) + c < stopAt → stopAt ≤ T + (k + 1) * (c + i) → k + 1 < fuel →
    loopRun c i stopAt T fuel = some (T + (k + 1) * (c + i)) := by
  intro c i stopAt k
  induction k with
  | zero =>
    intro T fuel h1 h2 h3
    obtain ⟨n, rfl⟩ : ∃ n, fuel = n + 2 := ⟨fuel - 2, by omega⟩
    rw [loopRun_succ, if_neg (by omega)]
    rw [loopRun_succ, if_pos (by omega)]
    exact congrArg some (by omega)
  | succ k ih =>
    intro T fuel h1 h2 h3
    obtain ⟨n, rfl⟩ : ∃ n, fuel = n + 1 := ⟨fuel - 1, by omega⟩
    have hT : T ≤ T + (k + 1) * (c + i) + c :=
      le_trans (Nat.le_add_right T ((k + 1) * (c + i))) (Nat.le_add_right _ c)
    rw [loopRun_succ,
      if_neg (fun hc => Nat.lt_irrefl stopAt (Nat.lt_of_le_of_lt (le_trans hc hT) h1))]
    have e : T + (k + 1 + 1) * (c + i) = (T + c + i) + (k + 1) * (c + i) := by
      rw [Nat.succ_mul (k + 1) (c + i)]
      generalize (k + 1) * (c + i) = r
      omega
    rw [e]
    refine ih (T + c + i) n ?_ ?_ (by omega)
    · rw [Nat.succ_mul k (c + i)] at h1
      generalize k * (c + i) = q at h1 ⊢
      omega
    · rw [Nat.succ_mul (k + 1) (c + i)] at h2
      generalize (k + 1) * (c + i) = r at h2 ⊢
      omega

/-- Counterexample for C9: with no processing cost, a poll interval of 10
and a stop request issued at time 5 — strictly inside the first sleep,
which spans times 0 to 10 — the loop exits at time 10, the sleep's
scheduled end.  The sleep is not interrupted and the stop request is not
observed during the sleep, only at the next `while self.running` check,
refuting the claimed prompt transition. -/
theorem stop_latency_counterexample :
    ((0 : Nat) < 5 ∧ (5 : Nat) < 10) ∧ loopRun 0 10 5 0 3 = some 10 :=
  ⟨by decide, rfl⟩

/-- C9 (amended): `stop()` only clears the run flag; the flag is observed
solely at the top-of-cycle `while self.running` check, and the
`time.sleep` always runs to completion.  A stop issued strictly after
cycle `k`'s check and by the end of that cycle's sleep is observed at the
next check, at time `(k+1)*(c+i)`; the latency from the stop to the exit
is still bounded by (the remainder of) one poll interval. -/
theorem stop_latency (c i stopAt k fuel : Nat)
    (h1 : k * (c + i) + c < stopAt) (h2 : stopAt ≤ (k + 1) * (c + i))
    (h3 : k + 1 < fuel) :
    loopRun c i stopAt 0 fuel = some ((k + 1) * (c + i))
    ∧ (k + 1) * (c + i) - stopAt < i := by
  constructor
  · have h := loopRun_exit_time c i stopAt k 0 fuel
      (by generalize k * (c + i) = q at h1 ⊢; omega)
      (by generalize (k + 1) * (c + i) = r at h2 ⊢; omega) h3
    simpa using h
  · rw [Nat.succ_mul k (c + i)] at h2 ⊢
    generalize k * (c + i) = q at h1 h2 ⊢
    omega

/-- Witness for C9's amended theorem: interval 10, stop at 5 during the
first sleep, exit observed at 10 with latency 5 < 10. -/
theorem stop_latency_witness :
    loopRun 0 10 5 0 3 = some 10 ∧ (10 : Nat) - 5 < 10 :=
  stop_latency 0 10 5 0 3 (by decide) (by decide) (by decide)

/-- C10: calling `start()` while the watcher is already running returns
immediately with the `Already running!` early return: the watch loop is
not entered and every field of the watcher state (seen-set, run flag,
callback list, filter) is unchanged. -/
theorem start_when_running (w : SynapseWatcher) (env : Nat → List FileEntry)
    (fuel : Nat) (h : w.running = true) :
    w.start env fuel = (w, StartResult.alreadyRunning) := by
  simp [SynapseWatcher.start, h]

/-- Witness for C10 at a concrete running watcher. -/
theorem start_when_running_witness :
    SynapseWatcher.start ⟨["s"], true, [], none⟩ (fun _ => []) 2
      = (⟨["s"], true, [], none⟩, StartResult.alreadyRunning) :=
  start_when_running ⟨["s"], true, [], none⟩ (fun _ => []) 2 rfl
